import Mathlib

/-!
Verification of the Zerothlayer image editor's command/history core.

This file gives a shallow embedding of the undo/redo engine
(`HistoryManager` in `src/lib/history/HistoryManager.ts`), the command
objects (`Actions.ts`, `MaskActions.ts`, `CropAction.ts`), the layer store
(`src/lib/store.ts`) and the selection/crop/mask logic of
`src/components/Canvas.tsx`, and proves or refutes the specification's
claims about them.

Conventions of the embedding:
* Geometric quantities (positions, sizes, offsets) are rationals `ℚ`,
  standing in for JavaScript numbers.
* Fabric drawable objects are identified by `ObjId := Nat`; the canvas
  object list `World.objects` is the ordered `canvas._objects` array, and
  the mutable attributes of the objects live in the heap `World.attrs`
  (objects keep their attributes while removed from the canvas, exactly as
  JavaScript objects stay alive while a command holds a reference).
* `canvas.add` appends; `canvas.remove` splices out the first occurrence
  and is a no-op when the object is absent (fabric's behaviour).
* Callbacks passed to commands are embedded by their observable effect on
  the modelled state: `onSelectionChange` writes `selectionRef`
  (`handleSelectionChangeInternal`), `setCanvasSize` writes the canvas
  dimensions, `setDocumentOrigin` writes `documentOrigin`,
  `updateLayerMap` writes the layer-to-drawable map.
-/

namespace Zerothlayer

/-- Identity of a fabric drawable object. -/
abbrev ObjId := Nat

/-- Mutable attributes of a fabric object (the fields the core reads or
writes: position, scale, unscaled size, visibility). -/
structure ObjAttrs where
  left : ℚ
  top : ℚ
  scaleX : ℚ
  scaleY : ℚ
  width : ℚ
  height : ℚ
  visible : Bool
deriving DecidableEq

/-- The geometry slice captured by `ModifySelectionAction`
(`{left, top, scaleX, scaleY, width, height}`). -/
structure SelState where
  left : ℚ
  top : ℚ
  scaleX : ℚ
  scaleY : ℚ
  width : ℚ
  height : ℚ
deriving DecidableEq

/-- A layer mask, `store.ts`: `{ dataUrl, visible }`. -/
structure Mask where
  dataUrl : String
  visible : Bool
deriving DecidableEq

/-- A layer of the zustand store (`store.ts`), with the fields the core
touches. -/
structure Layer where
  id : String
  name : String
  visible : Bool
  locked : Bool
  opacity : ℚ
  blendMode : String
  thumbnail : Option String
  mask : Option Mask
deriving DecidableEq

/-- `removeFirst a l` splices out the first occurrence of `a`, the
behaviour of fabric's `canvas.remove` (no-op when absent). -/
def removeFirst {α : Type} [DecidableEq α] (a : α) : List α → List α
  | [] => []
  | x :: xs => if x = a then xs else x :: removeFirst a xs

/-- `Map.set` of a JavaScript `Map` keyed by strings: overwrite in place,
else append. -/
def mapSet (k : String) (v : ObjId) (m : List (String × ObjId)) : List (String × ObjId) :=
  if m.any (fun p => p.1 = k) then
    m.map (fun p => if p.1 = k then (k, v) else p)
  else
    m ++ [(k, v)]

/-- `Map.get` of a JavaScript `Map` keyed by strings. -/
def mapGet (k : String) (m : List (String × ObjId)) : Option ObjId :=
  (m.find? (fun p => p.1 = k)).map (fun p => p.2)

/-- The per-layer body of `store.ts` `toggleLayerMask`:
`if (l.id !== layerId || !l.mask) return l` else flip `mask.visible`. -/
def toggleLayerOne (layerId : String) (l : Layer) : Layer :=
  if l.id = layerId then
    match l.mask with
    | none => l
    | some m => { l with mask := some { m with visible := !m.visible } }
  else l

/-- `store.ts` `toggleLayerMask`: flip `mask.visible` of the layer with
the given id, leaving layers without a mask (and all other layers)
untouched. -/
def toggleLayerMask (layerId : String) (ls : List Layer) : List Layer :=
  ls.map (toggleLayerOne layerId)

/-- The per-layer body of `store.ts` `setLayerMask`. -/
def setLayerOne (layerId : String) (data : Option String) (l : Layer) : Layer :=
  if l.id = layerId then
    match data with
    | none => { l with mask := none }
    | some d => { l with mask := some ⟨d, true⟩ }
  else l

/-- `store.ts` `setLayerMask`: `null` deletes the mask, otherwise the mask
is replaced wholesale with `visible := true`. -/
def setLayerMask (layerId : String) (data : Option String) (ls : List Layer) : List Layer :=
  ls.map (setLayerOne layerId data)

/-- The active tool of the layer store. -/
inductive Tool where
  | move
  | select
  | crop
deriving DecidableEq

/-- The program state the commands mutate: the fabric object list (in
z-order), the attribute heap, the layer-to-drawable map (`layerMapRef`),
the layer store, the document origin (`documentOriginRef`), the canvas
dimensions, the active selection reference (`selectionRectRef`), the
active layer and tool, and a fresh-object counter standing for allocation
of new fabric objects. -/
structure World where
  objects : List ObjId
  attrs : List (ObjId × ObjAttrs)
  layerMap : List (String × ObjId)
  layers : List Layer
  documentOrigin : ℚ × ℚ
  canvasWidth : ℚ
  canvasHeight : ℚ
  selectionRef : Option ObjId
  activeLayerId : Option String
  activeTool : Tool
  nextId : Nat
deriving DecidableEq

/-- Write the six geometry fields of `SelState` onto an object's
attributes (fabric `rect.set(state)`), keeping visibility. -/
def writeSel (st : SelState) (a : ObjAttrs) : ObjAttrs :=
  { a with left := st.left, top := st.top, scaleX := st.scaleX, scaleY := st.scaleY,
           width := st.width, height := st.height }

/-- Update the attributes of one object in the heap. -/
def setAttrs (o : ObjId) (f : ObjAttrs → ObjAttrs) (h : List (ObjId × ObjAttrs)) :
    List (ObjId × ObjAttrs) :=
  h.map (fun p => if p.1 = o then (p.1, f p.2) else p)

/-- Read the attributes of an object from the heap (`rect.left || 0`
style defaults when absent). -/
def getAttrs (o : ObjId) (h : List (ObjId × ObjAttrs)) : ObjAttrs :=
  ((h.find? (fun p => p.1 = o)).map (fun p => p.2)).getD ⟨0, 0, 1, 1, 0, 0, true⟩

/-! ## The command objects

Each constructor carries exactly the immutable data the corresponding
TypeScript class stores at construction time. -/

/-- The command variants of `src/lib/history`. -/
inductive Cmd where
  /-- `UploadImageAction` (`Actions.ts`). -/
  | uploadImage (previousImage : Option ObjId) (previousSelection : Option ObjId)
      (newImage : ObjId)
  /-- `CreateSelectionAction` (`Actions.ts`). -/
  | createSelection (selection : ObjId) (previousSelection : Option ObjId)
  /-- `ModifySelectionAction` (`Actions.ts`). -/
  | modifySelection (selection : ObjId) (previousState newState : SelState)
  /-- `ClearSelectionAction` (`Actions.ts`). -/
  | clearSelection (selection : ObjId)
  /-- `SetMaskAction` (`MaskActions.ts`); `oldMaskData` is already the
  `oldMaskData || null` of the constructor. -/
  | setMask (layerId : String) (oldMaskData newMaskData : Option String)
  /-- `ToggleMaskAction` (`MaskActions.ts`). -/
  | toggleMask (layerId : String)
  /-- `CropAction` (`CropAction.ts`): old/new dimensions, old/new document
  origin, crop offset, the selection rectangle, the active layer and the
  attached image pair (`attachImages`). -/
  | crop (oldWidth oldHeight newWidth newHeight : ℚ)
      (oldDocOrigin newDocOrigin : ℚ × ℚ) (cropOffsetX cropOffsetY : ℚ)
      (selection : ObjId) (activeLayerId : Option String)
      (previousImage newImage : Option ObjId)
deriving DecidableEq

/-- `execute()` of each command class, as a transformation of the modelled
state.  Rendering calls (`renderAll`, `calcOffset`) have no modelled
effect. -/
def execCmd : Cmd → World → World
  | .uploadImage _ _ newImage, w =>
    -- canvas.clear(); canvas.add(newImage); onSelectionChange(null)
    { w with objects := [newImage], selectionRef := none }
  | .createSelection sel prev, w =>
    let objs := match prev with
      | some p => removeFirst p w.objects
      | none => w.objects
    { w with objects := objs ++ [sel], selectionRef := some sel }
  | .modifySelection sel _ newState, w =>
    { w with attrs := setAttrs sel (writeSel newState) w.attrs }
  | .clearSelection sel, w =>
    { w with objects := removeFirst sel w.objects, selectionRef := none }
  | .setMask layerId _ newMaskData, w =>
    { w with layers := setLayerMask layerId newMaskData w.layers }
  | .toggleMask layerId, w =>
    { w with layers := toggleLayerMask layerId w.layers }
  | .crop _ _ _ _ _ _ _ _ sel active prev next, w =>
    -- 1. remove the selection, clear the selection ref
    let w1 := { w with objects := removeFirst sel w.objects, selectionRef := none }
    -- 2. swap images and update the layer map (only when both attached)
    match prev, next with
    | some p, some n =>
      let objs := removeFirst p w1.objects ++ [n]
      let lmap := match active with
        | some lid => mapSet lid n w1.layerMap
        | none => w1.layerMap
      { w1 with objects := objs, layerMap := lmap }
    | _, _ => w1

/-- `undo()` of each command class. -/
def undoCmd : Cmd → World → World
  | .uploadImage prev prevSel _, w =>
    -- canvas.clear(); restore previous image (and selection) if any
    (match prev with
     | some p =>
       let objs := [p] ++ (match prevSel with | some s => [s] | none => [])
       { w with objects := objs, selectionRef := prevSel }
     | none => { w with objects := [], selectionRef := none })
  | .createSelection sel prev, w =>
    let w1 := { w with objects := removeFirst sel w.objects }
    (match prev with
     | some p => { w1 with objects := w1.objects ++ [p], selectionRef := some p }
     | none => { w1 with selectionRef := none })
  | .modifySelection sel prevState _, w =>
    { w with attrs := setAttrs sel (writeSel prevState) w.attrs }
  | .clearSelection sel, w =>
    { w with objects := w.objects ++ [sel], selectionRef := some sel }
  | .setMask layerId oldMaskData _, w =>
    { w with layers := setLayerMask layerId oldMaskData w.layers }
  | .toggleMask layerId, w =>
    { w with layers := toggleLayerMask layerId w.layers }
  | .crop _ _ _ _ _ _ _ _ sel active prev next, w =>
    -- 1. swap images back
    let w1 := match prev, next with
      | some p, some n =>
        let objs := removeFirst n w.objects ++ [p]
        let lmap := match active with
          | some lid => mapSet lid p w.layerMap
          | none => w.layerMap
        { w with objects := objs, layerMap := lmap }
      | _, _ => w
    -- 2. restore the selection
    { w1 with objects := w1.objects ++ [sel], selectionRef := some sel }

/-! ## The History Engine (`HistoryManager.ts`) -/

/-- The `Action` interface: an `execute`/`undo` pair over a state type. -/
structure Action (σ : Type) where
  execute : σ → σ
  undo : σ → σ

/-- A command object, seen through the `Action` interface. -/
def Cmd.toAction (c : Cmd) : Action World :=
  ⟨execCmd c, undoCmd c⟩

/-- `HistoryManager`: two stacks (most-recent-last, as JavaScript arrays
with `push`/`pop` at the end) and the maximum depth. -/
structure HistoryManager (σ : Type) where
  undoStack : List (Action σ)
  redoStack : List (Action σ)
  maxHistorySize : Nat

/-- A fresh `HistoryManager` with the default depth 50. -/
def HistoryManager.fresh (σ : Type) : HistoryManager σ :=
  ⟨[], [], 50⟩

/-- `HistoryManager.execute`: run the action, push it, shift the oldest
entry out when over the bound, clear the redo stack. -/
def HistoryManager.execute {σ : Type} (h : HistoryManager σ) (a : Action σ) (s : σ) :
    HistoryManager σ × σ :=
  let s1 := a.execute s
  let pushed := h.undoStack ++ [a]
  let limited := if h.maxHistorySize < pushed.length then pushed.drop 1 else pushed
  (⟨limited, [], h.maxHistorySize⟩, s1)

/-- `HistoryManager.undo`: pop the newest undo entry, run its `undo`,
push it onto the redo stack; no-op when empty. -/
def HistoryManager.undo {σ : Type} (h : HistoryManager σ) (s : σ) :
    HistoryManager σ × σ :=
  match h.undoStack.getLast? with
  | none => (h, s)
  | some a => (⟨h.undoStack.dropLast, h.redoStack ++ [a], h.maxHistorySize⟩, a.undo s)

/-- `HistoryManager.redo`: pop the newest redo entry, run its `execute`,
push it back onto the undo stack; no-op when empty. -/
def HistoryManager.redo {σ : Type} (h : HistoryManager σ) (s : σ) :
    HistoryManager σ × σ :=
  match h.redoStack.getLast? with
  | none => (h, s)
  | some a => (⟨h.undoStack ++ [a], h.redoStack.dropLast, h.maxHistorySize⟩, a.execute s)

/-- `canUndo()`. -/
def HistoryManager.canUndo {σ : Type} (h : HistoryManager σ) : Bool :=
  decide (0 < h.undoStack.length)

/-- `canRedo()`. -/
def HistoryManager.canRedo {σ : Type} (h : HistoryManager σ) : Bool :=
  decide (0 < h.redoStack.length)

/-- Execute a list of actions in order through the engine. -/
def execAll {σ : Type} (h : HistoryManager σ) (cs : List (Action σ)) (s : σ) :
    HistoryManager σ × σ :=
  cs.foldl (fun p a => p.1.execute a p.2) (h, s)

/-- Call `undo()` `n` times. -/
def undoAll {σ : Type} (h : HistoryManager σ) (n : Nat) (s : σ) :
    HistoryManager σ × σ :=
  match n with
  | 0 => (h, s)
  | n + 1 => undoAll (h.undo s).1 n (h.undo s).2

/-! ## C3: execute clears the redo stack -/

/-- C3: For every history state and every command `c`, `execute(c)`
empties the redo stack: immediately afterwards `canRedo()` returns
`false`, and a subsequent `redo()` call leaves the stacks and the program
state unchanged. -/
theorem execute_clears_redo {σ : Type} (h : HistoryManager σ) (a : Action σ) (s : σ) :
    (h.execute a s).1.redoStack = [] ∧
    (h.execute a s).1.canRedo = false ∧
    (h.execute a s).1.redo (h.execute a s).2 = ((h.execute a s).1, (h.execute a s).2) := by
  refine ⟨rfl, rfl, rfl⟩

/-! ## C4: the undo stack is bounded and discarded entries never return -/

/-- Interleave `undo()` (`true`) and `redo()` (`false`) calls. -/
def undoRedoAll {σ : Type} (h : HistoryManager σ) (ops : List Bool) (s : σ) :
    HistoryManager σ × σ :=
  match ops with
  | [] => (h, s)
  | b :: rest =>
    let p := if b then h.undo s else h.redo s
    undoRedoAll p.1 rest p.2

theorem execute_maxHistorySize {σ : Type} (h : HistoryManager σ) (a : Action σ) (s : σ) :
    (h.execute a s).1.maxHistorySize = h.maxHistorySize := rfl

theorem execute_undoStack_length_le {σ : Type} (h : HistoryManager σ) (a : Action σ) (s : σ)
    (hlen : h.undoStack.length ≤ h.maxHistorySize) :
    (h.execute a s).1.undoStack.length ≤ h.maxHistorySize := by
  unfold HistoryManager.execute
  by_cases hc : h.maxHistorySize < (h.undoStack ++ [a]).length
  · simp only [hc, if_true]
    simp only [List.length_drop, List.length_append, List.length_singleton]
    omega
  · simp only [hc, if_false]
    simp only [List.length_append, List.length_singleton] at hc ⊢
    omega

theorem execAll_undoStack_length_le {σ : Type} (cs : List (Action σ))
    (h : HistoryManager σ) (s : σ) (hlen : h.undoStack.length ≤ h.maxHistorySize) :
    (execAll h cs s).1.undoStack.length ≤ (execAll h cs s).1.maxHistorySize := by
  induction cs generalizing h s with
  | nil => exact hlen
  | cons a rest ih =>
    have step := execute_undoStack_length_le h a s hlen
    have hmax := execute_maxHistorySize h a s
    have : execAll h (a :: rest) s =
        execAll (h.execute a s).1 rest (h.execute a s).2 := rfl
    rw [this]
    exact ih _ _ (by rw [hmax]; exact step)

theorem undo_not_mem {σ : Type} (h : HistoryManager σ) (s : σ) (a : Action σ)
    (h1 : a ∉ h.undoStack) (h2 : a ∉ h.redoStack) :
    a ∉ (h.undo s).1.undoStack ∧ a ∉ (h.undo s).1.redoStack := by
  unfold HistoryManager.undo
  cases hl : h.undoStack.getLast? with
  | none => exact ⟨h1, h2⟩
  | some x =>
    have hx : x ∈ h.undoStack := by
      have : x ∈ h.undoStack.getLast? := by rw [hl]; rfl
      obtain ⟨hne, hxe⟩ := List.mem_getLast?_eq_getLast this
      exact hxe ▸ List.getLast_mem hne
    constructor
    · intro hmem
      exact h1 (List.dropLast_sublist h.undoStack |>.mem hmem)
    · intro hmem
      rcases List.mem_append.mp hmem with hmem | hmem
      · exact h2 hmem
      · rcases List.mem_singleton.mp hmem with rfl
        exact h1 hx

theorem redo_not_mem {σ : Type} (h : HistoryManager σ) (s : σ) (a : Action σ)
    (h1 : a ∉ h.undoStack) (h2 : a ∉ h.redoStack) :
    a ∉ (h.redo s).1.undoStack ∧ a ∉ (h.redo s).1.redoStack := by
  unfold HistoryManager.redo
  cases hl : h.redoStack.getLast? with
  | none => exact ⟨h1, h2⟩
  | some x =>
    have hx : x ∈ h.redoStack := by
      have : x ∈ h.redoStack.getLast? := by rw [hl]; rfl
      obtain ⟨hne, hxe⟩ := List.mem_getLast?_eq_getLast this
      exact hxe ▸ List.getLast_mem hne
    constructor
    · intro hmem
      rcases List.mem_append.mp hmem with hmem | hmem
      · exact h1 hmem
      · rcases List.mem_singleton.mp hmem with rfl
        exact h2 hx
    · intro hmem
      exact h2 (List.dropLast_sublist h.redoStack |>.mem hmem)

theorem undoRedoAll_not_mem {σ : Type} (ops : List Bool) (h : HistoryManager σ)
    (s : σ) (a : Action σ) (h1 : a ∉ h.undoStack) (h2 : a ∉ h.redoStack) :
    a ∉ (undoRedoAll h ops s).1.undoStack ∧ a ∉ (undoRedoAll h ops s).1.redoStack := by
  induction ops generalizing h s with
  | nil => exact ⟨h1, h2⟩
  | cons b rest ih =>
    cases b with
    | true =>
      obtain ⟨u1, u2⟩ := undo_not_mem h s a h1 h2
      exact ih _ _ u1 u2
    | false =>
      obtain ⟨u1, u2⟩ := redo_not_mem h s a h1 h2
      exact ih _ _ u1 u2

/-- C4: with maximum depth 50 and at most 50 recorded entries, any further
sequence of `execute()` calls keeps the undo stack at length ≤ 50; when
the stack is full an `execute` silently drops the oldest entry (the stack
becomes `tail ++ [a]`) and leaves the redo stack empty, so the dropped
command sits on neither stack; and a command absent from both stacks stays
absent under every further interleaving of `undo()`/`redo()` calls, hence
is unrecoverable via `redo()`. -/
theorem undo_stack_bound {σ : Type} (h0 : HistoryManager σ) (cs : List (Action σ)) (s : σ)
    (hmax : h0.maxHistorySize = 50) (hlen : h0.undoStack.length ≤ 50) :
    (execAll h0 cs s).1.undoStack.length ≤ 50 ∧
    (∀ (a : Action σ) (s' : σ), h0.undoStack.length = 50 →
      (h0.execute a s').1.undoStack = h0.undoStack.tail ++ [a] ∧
      (h0.execute a s').1.redoStack = []) ∧
    (∀ (ops : List Bool) (h : HistoryManager σ) (s' : σ) (a : Action σ),
      a ∉ h.undoStack → a ∉ h.redoStack →
      a ∉ (undoRedoAll h ops s').1.undoStack ∧ a ∉ (undoRedoAll h ops s').1.redoStack) := by
  refine ⟨?_, ?_, ?_⟩
  · have := execAll_undoStack_length_le cs h0 s (by omega)
    have hm : (execAll h0 cs s).1.maxHistorySize = 50 := by
      clear this hlen
      induction cs generalizing h0 s with
      | nil => exact hmax
      | cons a rest ih =>
        have : execAll h0 (a :: rest) s =
            execAll (h0.execute a s).1 rest (h0.execute a s).2 := rfl
        rw [this]
        exact ih _ _ hmax
    omega
  · intro a s' hfull
    constructor
    · unfold HistoryManager.execute
      have hc : h0.maxHistorySize < (h0.undoStack ++ [a]).length := by
        simp [hmax, hfull]
      simp only [hc, if_true]
      cases hu : h0.undoStack with
      | nil => rw [hu] at hfull; simp at hfull
      | cons x xs => simp
    · rfl
  · intro ops h s' a h1 h2
    exact undoRedoAll_not_mem ops h s' a h1 h2

/-- A trivial action on `Unit`, for witness instantiation. -/
def unitAction : Action Unit :=
  ⟨fun s => s, fun s => s⟩

/-- A full history manager over `Unit` (50 recorded entries, depth 50). -/
def fullUnitHM : HistoryManager Unit :=
  ⟨List.replicate 50 unitAction, [], 50⟩

/-- Witness for `undo_stack_bound` at a concrete full stack: executing one
more action keeps the bound, drops the oldest entry and clears the redo
stack. -/
theorem undo_stack_bound_witness :
    (execAll fullUnitHM [unitAction] ()).1.undoStack.length ≤ 50 ∧
    (∀ (a : Action Unit) (s' : Unit), fullUnitHM.undoStack.length = 50 →
      (fullUnitHM.execute a s').1.undoStack = fullUnitHM.undoStack.tail ++ [a] ∧
      (fullUnitHM.execute a s').1.redoStack = []) ∧
    (∀ (ops : List Bool) (h : HistoryManager Unit) (s' : Unit) (a : Action Unit),
      a ∉ h.undoStack → a ∉ h.redoStack →
      a ∉ (undoRedoAll h ops s').1.undoStack ∧ a ∉ (undoRedoAll h ops s').1.redoStack) :=
  undo_stack_bound fullUnitHM [unitAction] () rfl (by simp [fullUnitHM])

/-! ## C1: the N-commands / N-undos round trip -/

/-- Run the `execute` side of a list of actions directly (without the
engine). -/
def applyAll {σ : Type} (cs : List (Action σ)) (s : σ) : σ :=
  cs.foldl (fun t a => a.execute t) s

/-- `LocalInverse cs s`: along the trace starting at `s`, each action's
`undo` inverts its `execute` at the very state where the engine runs it.
This is the coherence discipline the command objects are built for (each
captures the before-state it restores). -/
def LocalInverse {σ : Type} : List (Action σ) → σ → Prop
  | [], _ => True
  | a :: rest, s => a.undo (a.execute s) = s ∧ LocalInverse rest (a.execute s)

theorem applyAll_append {σ : Type} (l₁ l₂ : List (Action σ)) (s : σ) :
    applyAll (l₁ ++ l₂) s = applyAll l₂ (applyAll l₁ s) := by
  simp [applyAll, List.foldl_append]

theorem localInverse_singleton {σ : Type} (a : Action σ) (s : σ)
    (h : a.undo (a.execute s) = s) : LocalInverse [a] s := by
  unfold LocalInverse
  exact ⟨h, trivial⟩

theorem localInverse_append_singleton {σ : Type} (l : List (Action σ)) (a : Action σ)
    (s : σ) (h : LocalInverse (l ++ [a]) s) :
    LocalInverse l s ∧ a.undo (a.execute (applyAll l s)) = applyAll l s := by
  induction l generalizing s with
  | nil => exact ⟨trivial, h.1⟩
  | cons b rest ih =>
    obtain ⟨hb, hrest⟩ := h
    obtain ⟨h1, h2⟩ := ih _ hrest
    exact ⟨⟨hb, h1⟩, h2⟩

/-- Executing `cs` through an engine with room for all of them pushes them
in order, runs them in order, and keeps the depth limit. -/
theorem execAll_no_overflow {σ : Type} (cs : List (Action σ)) (h : HistoryManager σ)
    (s : σ) (hlen : h.undoStack.length + cs.length ≤ h.maxHistorySize) :
    (execAll h cs s).1.undoStack = h.undoStack ++ cs ∧
    (execAll h cs s).2 = applyAll cs s ∧
    (execAll h cs s).1.maxHistorySize = h.maxHistorySize := by
  induction cs generalizing h s with
  | nil => exact ⟨(List.append_nil _).symm, rfl, rfl⟩
  | cons a rest ih =>
    have hstep : h.execute a s = (⟨h.undoStack ++ [a], [], h.maxHistorySize⟩, a.execute s) := by
      have hc : ¬ h.maxHistorySize < h.undoStack.length + 1 := by
        simp only [List.length_cons] at hlen
        omega
      simp [HistoryManager.execute, hc]
    have hrec : execAll h (a :: rest) s =
        execAll (h.execute a s).1 rest (h.execute a s).2 := rfl
    rw [hrec, hstep]
    have hlen' : (h.undoStack ++ [a]).length + rest.length ≤ h.maxHistorySize := by
      simp only [List.length_append, List.length_singleton]
      simp only [List.length_cons] at hlen
      omega
    obtain ⟨h1, h2, h3⟩ := ih ⟨h.undoStack ++ [a], [], h.maxHistorySize⟩ (a.execute s) hlen'
    refine ⟨?_, h2, h3⟩
    rw [h1]
    simp

/-- Popping `cs.length` undos off a stack ending in `cs`, starting from
the state `applyAll cs s0`, rewinds the state to `s0` whenever `cs` is
locally invertible along its trace. -/
theorem undoAll_rewinds {σ : Type} (cs : List (Action σ)) :
    ∀ (base : List (Action σ)) (h : HistoryManager σ) (s0 : σ),
    h.undoStack = base ++ cs → LocalInverse cs s0 →
    (undoAll h cs.length (applyAll cs s0)).2 = s0 ∧
    (undoAll h cs.length (applyAll cs s0)).1.undoStack = base := by
  induction cs using List.reverseRecOn with
  | nil =>
    intro base h s0 hstack hinv
    exact ⟨rfl, by simpa using hstack⟩
  | append_singleton cs' a ih =>
    intro base h s0 hstack hinv
    obtain ⟨hinv', hlast⟩ := localInverse_append_singleton cs' a s0 hinv
    have hlen : (cs' ++ [a]).length = cs'.length + 1 := by simp
    have happ : applyAll (cs' ++ [a]) s0 = a.execute (applyAll cs' s0) := by
      rw [applyAll_append]; rfl
    have hglast : h.undoStack.getLast? = some a := by
      rw [hstack, ← List.append_assoc]
      exact List.getLast?_concat _
    have hdrop : h.undoStack.dropLast = base ++ cs' := by
      rw [hstack, ← List.append_assoc]
      exact List.dropLast_concat
    have hundo : h.undo (applyAll (cs' ++ [a]) s0) =
        (⟨base ++ cs', h.redoStack ++ [a], h.maxHistorySize⟩,
         applyAll cs' s0) := by
      unfold HistoryManager.undo
      rw [hglast]
      simp only [hdrop, happ, hlast]
    rw [hlen]
    have hstep : undoAll h (cs'.length + 1) (applyAll (cs' ++ [a]) s0) =
        undoAll (h.undo (applyAll (cs' ++ [a]) s0)).1 cs'.length
          (h.undo (applyAll (cs' ++ [a]) s0)).2 := rfl
    rw [hstep, hundo]
    exact ih base ⟨base ++ cs', h.redoStack ++ [a], h.maxHistorySize⟩ s0 rfl hinv'

/-- The abstract round-trip law: starting from any engine with room for
all of `cs` (no silent discards), executing `cs` and then undoing
`cs.length` times restores the initial state, provided each command's
`undo` inverts its `execute` at the state where it runs. -/
theorem round_trip_general {σ : Type} (h : HistoryManager σ) (cs : List (Action σ))
    (s : σ) (hlen : h.undoStack.length + cs.length ≤ h.maxHistorySize)
    (hinv : LocalInverse cs s) :
    (undoAll (execAll h cs s).1 cs.length (execAll h cs s).2).2 = s := by
  obtain ⟨h1, h2, _⟩ := execAll_no_overflow cs h s hlen
  have := undoAll_rewinds cs h.undoStack (execAll h cs s).1 s h1 hinv
  rw [h2]
  exact (this.1)

/-- C1 (amended): for every sequence of `N` commands executed through the
History Engine — provided the engine has room for all `N` (no oldest-entry
discard) and each command's `undo` inverts its `execute` at the point it
is applied — `N` subsequent `undo()` calls restore the drawable-object
graph, the attribute heap, the layer-to-drawable bindings and the document
origin (indeed the whole modelled state) to their pre-sequence values. -/
theorem round_trip_commands (h : HistoryManager World) (cs : List (Action World))
    (w : World) (hlen : h.undoStack.length + cs.length ≤ h.maxHistorySize)
    (hinv : LocalInverse cs w) :
    (undoAll (execAll h cs w).1 cs.length (execAll h cs w).2).2.objects = w.objects ∧
    (undoAll (execAll h cs w).1 cs.length (execAll h cs w).2).2.layerMap = w.layerMap ∧
    (undoAll (execAll h cs w).1 cs.length (execAll h cs w).2).2.documentOrigin =
      w.documentOrigin ∧
    (undoAll (execAll h cs w).1 cs.length (execAll h cs w).2).2 = w := by
  have := round_trip_general h cs w hlen hinv
  rw [this]
  exact ⟨rfl, rfl, rfl, rfl⟩

/-- A sample layer with a visible mask. -/
def sampleLayer : Layer :=
  ⟨"L", "photo.png", true, false, 1, "normal", none, some ⟨"maskData", true⟩⟩

/-- A sample document: one image (object 1) bound to layer `L`, no
selection. -/
def baseWorld : World where
  objects := [1]
  attrs := [(1, ⟨0, 0, 1, 1, 100, 100, true⟩)]
  layerMap := [("L", 1)]
  layers := [sampleLayer]
  documentOrigin := (0, 0)
  canvasWidth := 1000
  canvasHeight := 800
  selectionRef := none
  activeLayerId := some "L"
  activeTool := Tool.move
  nextId := 2

/-- Witness for `round_trip_commands`: one `ToggleMaskAction` executed and
undone on `baseWorld` restores the state. -/
theorem round_trip_commands_witness :
    (HistoryManager.fresh World).undoStack.length +
      [Cmd.toAction (Cmd.toggleMask "L")].length ≤
      (HistoryManager.fresh World).maxHistorySize ∧
    LocalInverse [Cmd.toAction (Cmd.toggleMask "L")] baseWorld ∧
    (undoAll
      (execAll (HistoryManager.fresh World) [Cmd.toAction (Cmd.toggleMask "L")] baseWorld).1
      [Cmd.toAction (Cmd.toggleMask "L")].length
      (execAll (HistoryManager.fresh World) [Cmd.toAction (Cmd.toggleMask "L")] baseWorld).2).2
      = baseWorld := by
  refine ⟨by decide, localInverse_singleton _ _ (by decide), ?_⟩
  exact (round_trip_commands _ _ _ (by decide)
    (localInverse_singleton _ _ (by decide))).2.2.2

/-- C1 is false as stated: `UploadImageAction.execute` calls
`canvas.clear()`, erasing every object; its `undo` restores only the
stored previous image.  Executing one upload command (no previous image)
on a document whose graph holds object 1 and then undoing leaves the graph
empty, not `[1]`. -/
theorem round_trip_counterexample :
    (undoAll
      (execAll (HistoryManager.fresh World)
        [Cmd.toAction (Cmd.uploadImage none none 2)] baseWorld).1
      1
      (execAll (HistoryManager.fresh World)
        [Cmd.toAction (Cmd.uploadImage none none 2)] baseWorld).2).2.objects ≠
      baseWorld.objects := by
  decide

/-! ## C10: `toggleLayerMask` is an involution -/

theorem toggleLayerOne_id (lid : String) (l : Layer) :
    (toggleLayerOne lid l).id = l.id := by
  unfold toggleLayerOne
  by_cases h : l.id = lid <;> cases hm : l.mask <;> simp [h, hm]

theorem toggleLayerOne_involutive (lid : String) (l : Layer) :
    toggleLayerOne lid (toggleLayerOne lid l) = l := by
  obtain ⟨i, nm, v, lk, op, bm, th, mask⟩ := l
  unfold toggleLayerOne
  by_cases h : i = lid
  · cases mask with
    | none => simp [h]
    | some m =>
      obtain ⟨du, mv⟩ := m
      simp [h]
  · simp [h]

theorem toggleLayerMask_involutive (lid : String) (ls : List Layer) :
    toggleLayerMask lid (toggleLayerMask lid ls) = ls := by
  unfold toggleLayerMask
  induction ls with
  | nil => rfl
  | cons l rest ih => simp [toggleLayerOne_involutive, ih]

theorem toggleLayerOne_of_ne (lid : String) (l : Layer) (h : l.id ≠ lid) :
    toggleLayerOne lid l = l := by
  simp [toggleLayerOne, h]

theorem toggleLayerOne_of_none (lid : String) (l : Layer)
    (h : l.id = lid → l.mask = none) : toggleLayerOne lid l = l := by
  unfold toggleLayerOne
  by_cases hid : l.id = lid
  · rw [h hid]; simp [hid]
  · simp [hid]

theorem getD_map_lt {α : Type} (f : α → α) (l : List α) (i : Nat) (d : α)
    (hi : i < l.length) : (l.map f).getD i d = f (l.getD i d) := by
  induction l generalizing i with
  | nil => simp at hi
  | cons x xs ih =>
    cases i with
    | zero => rfl
    | succ n =>
      simp only [List.length_cons, Nat.succ_lt_succ_iff] at hi
      simpa using ih n hi

/-- C10: `ToggleMaskAction.undo` runs the same operation as its `execute`
(both invoke `toggleLayerMask` once); `toggleLayerMask` is an involution
on any layer list; a single application leaves the list unchanged whenever
every layer with the target id has no mask (in particular when the id is
absent); layers whose id differs from the target are unchanged; and on the
target layer every field other than `mask.visible` — including the mask's
presence and pixel data — is preserved. -/
theorem toggleMask_involution (lid : String) (ls : List Layer) (d : Layer) :
    (∀ w : World, execCmd (Cmd.toggleMask lid) w = undoCmd (Cmd.toggleMask lid) w) ∧
    toggleLayerMask lid (toggleLayerMask lid ls) = ls ∧
    ((∀ l ∈ ls, l.id = lid → l.mask = none) → toggleLayerMask lid ls = ls) ∧
    (∀ i, i < ls.length → (ls.getD i d).id ≠ lid →
      (toggleLayerMask lid ls).getD i d = ls.getD i d) ∧
    (∀ i, i < ls.length →
      ((toggleLayerMask lid ls).getD i d).id = (ls.getD i d).id ∧
      ((toggleLayerMask lid ls).getD i d).name = (ls.getD i d).name ∧
      ((toggleLayerMask lid ls).getD i d).visible = (ls.getD i d).visible ∧
      ((toggleLayerMask lid ls).getD i d).locked = (ls.getD i d).locked ∧
      ((toggleLayerMask lid ls).getD i d).opacity = (ls.getD i d).opacity ∧
      ((toggleLayerMask lid ls).getD i d).blendMode = (ls.getD i d).blendMode ∧
      ((toggleLayerMask lid ls).getD i d).thumbnail = (ls.getD i d).thumbnail ∧
      ((toggleLayerMask lid ls).getD i d).mask.isSome = (ls.getD i d).mask.isSome ∧
      ((toggleLayerMask lid ls).getD i d).mask.map Mask.dataUrl =
        (ls.getD i d).mask.map Mask.dataUrl) := by
  refine ⟨fun w => rfl, toggleLayerMask_involutive lid ls, ?_, ?_, ?_⟩
  · intro h
    unfold toggleLayerMask
    induction ls with
    | nil => rfl
    | cons l rest ih =>
      have h1 := toggleLayerOne_of_none lid l (h l (by simp))
      have h2 := ih (fun l' hl' => h l' (by simp [hl']))
      simpa [h1] using h2
  · intro i hi hne
    rw [toggleLayerMask, getD_map_lt _ _ _ _ hi]
    exact toggleLayerOne_of_ne lid _ hne
  · intro i hi
    rw [toggleLayerMask, getD_map_lt _ _ _ _ hi]
    set l := ls.getD i d with hl
    clear hl hi
    unfold toggleLayerOne
    by_cases h : l.id = lid
    · cases hm : l.mask with
      | none => simp [h, hm]
      | some m => simp [h, hm]
    · simp [h]

/-- A second layer, bound to nothing, used in witnesses. -/
def otherLayer : Layer :=
  ⟨"M", "background.png", true, false, 1, "normal", none, none⟩

/-- Witness for `toggleMask_involution` on a concrete two-layer list:
double toggle restores the list, toggling an absent id is the identity,
and the non-target layer is untouched. -/
theorem toggleMask_involution_witness :
    toggleLayerMask "L" (toggleLayerMask "L" [sampleLayer, otherLayer]) =
      [sampleLayer, otherLayer] ∧
    toggleLayerMask "X" [sampleLayer, otherLayer] = [sampleLayer, otherLayer] ∧
    (toggleLayerMask "L" [sampleLayer, otherLayer]).getD 1 otherLayer =
      [sampleLayer, otherLayer].getD 1 otherLayer :=
  ⟨(toggleMask_involution "L" [sampleLayer, otherLayer] otherLayer).2.1,
   (toggleMask_involution "X" [sampleLayer, otherLayer] otherLayer).2.2.1 (by decide),
   (toggleMask_involution "L" [sampleLayer, otherLayer] otherLayer).2.2.2.1 1
     (by decide) (by decide)⟩

/-! ## C5: idempotence of `apply` -/

theorem setAttrs_idem (o : ObjId) (f : ObjAttrs → ObjAttrs)
    (hf : ∀ a, f (f a) = f a) (h : List (ObjId × ObjAttrs)) :
    setAttrs o f (setAttrs o f h) = setAttrs o f h := by
  unfold setAttrs
  induction h with
  | nil => rfl
  | cons p rest ih =>
    by_cases hp : p.1 = o
    · simp [hp, hf, ih]
    · simp [hp, ih]

theorem setAttrs_writeSel_idem (o : ObjId) (st : SelState) (h : List (ObjId × ObjAttrs)) :
    setAttrs o (writeSel st) (setAttrs o (writeSel st) h) = setAttrs o (writeSel st) h :=
  setAttrs_idem o (writeSel st) (fun _ => rfl) h

theorem setLayerOne_idem (lid : String) (data : Option String) (l : Layer) :
    setLayerOne lid data (setLayerOne lid data l) = setLayerOne lid data l := by
  unfold setLayerOne
  by_cases h : l.id = lid
  · cases data <;> simp [h]
  · simp [h]

theorem setLayerMask_idem (lid : String) (data : Option String) (ls : List Layer) :
    setLayerMask lid data (setLayerMask lid data ls) = setLayerMask lid data ls := by
  unfold setLayerMask
  induction ls with
  | nil => rfl
  | cons l rest ih => simp [setLayerOne_idem, ih]

theorem removeFirst_of_not_mem {α : Type} [DecidableEq α] (a : α) (l : List α)
    (h : a ∉ l) : removeFirst a l = l := by
  induction l with
  | nil => rfl
  | cons x xs ih =>
    have hx : x ≠ a := fun he => h (he ▸ List.mem_cons_self x xs)
    have hxs : a ∉ xs := fun hm => h (List.mem_cons_of_mem x hm)
    simp [removeFirst, hx, ih hxs]

theorem removeFirst_removeFirst {α : Type} [DecidableEq α] (a : α) (l : List α)
    (h : l.count a ≤ 1) : removeFirst a (removeFirst a l) = removeFirst a l := by
  induction l with
  | nil => rfl
  | cons x xs ih =>
    by_cases hx : x = a
    · subst hx
      have hc : xs.count x = 0 := by
        rw [List.count_cons_self] at h
        omega
      have hnm : x ∉ xs := List.count_eq_zero.mp hc
      simp [removeFirst, removeFirst_of_not_mem x xs hnm]
    · have hc : xs.count a ≤ 1 := by
        rw [List.count_cons_of_ne (fun he => hx he.symm)] at h
        omega
      simp [removeFirst, hx, ih hc]

/-- C5 is false as stated: `ToggleMaskAction.apply` is not idempotent.  On
`baseWorld` (layer `L` carries a visible mask, touched by nobody else)
applying the toggle twice leaves a state different from applying it
once. -/
theorem apply_twice_counterexample :
    execCmd (Cmd.toggleMask "L") (execCmd (Cmd.toggleMask "L") baseWorld) ≠
      execCmd (Cmd.toggleMask "L") baseWorld := by
  decide

/-- C5 (amended): `apply` is idempotent for the `UploadImage`,
`ModifySelection` and `SetMask` variants unconditionally, and for
`ClearSelection` whenever its selection rectangle occurs at most once in
the graph; the `ToggleMask` variant is not idempotent but an involution —
applying it twice restores the pre-apply state. -/
theorem apply_idempotent_amended :
    (∀ (prev prevSel : Option ObjId) (img : ObjId) (w : World),
      execCmd (Cmd.uploadImage prev prevSel img)
          (execCmd (Cmd.uploadImage prev prevSel img) w) =
        execCmd (Cmd.uploadImage prev prevSel img) w) ∧
    (∀ (sel : ObjId) (ps ns : SelState) (w : World),
      execCmd (Cmd.modifySelection sel ps ns)
          (execCmd (Cmd.modifySelection sel ps ns) w) =
        execCmd (Cmd.modifySelection sel ps ns) w) ∧
    (∀ (lid : String) (old new : Option String) (w : World),
      execCmd (Cmd.setMask lid old new) (execCmd (Cmd.setMask lid old new) w) =
        execCmd (Cmd.setMask lid old new) w) ∧
    (∀ (sel : ObjId) (w : World), w.objects.count sel ≤ 1 →
      execCmd (Cmd.clearSelection sel) (execCmd (Cmd.clearSelection sel) w) =
        execCmd (Cmd.clearSelection sel) w) ∧
    (∀ (lid : String) (w : World),
      execCmd (Cmd.toggleMask lid) (execCmd (Cmd.toggleMask lid) w) = w) := by
  refine ⟨fun prev prevSel img w => rfl, ?_, ?_, ?_, ?_⟩
  · intro sel ps ns w
    simp [execCmd, setAttrs_writeSel_idem]
  · intro lid old new w
    simp [execCmd, setLayerMask_idem]
  · intro sel w hcount
    simp [execCmd, removeFirst_removeFirst sel w.objects hcount]
  · intro lid w
    cases w
    simp [execCmd, toggleLayerMask_involutive]

/-- `baseWorld` with a selection rectangle (object 2) on the canvas. -/
def selWorld : World :=
  { baseWorld with
      objects := [1, 2],
      attrs := baseWorld.attrs ++ [(2, ⟨100, 50, 1, 1, 400, 300, true⟩)],
      selectionRef := some 2,
      nextId := 3 }

/-- Witness for `apply_idempotent_amended`: concrete double applications
of `ClearSelection` (selection present exactly once) and `UploadImage`. -/
theorem apply_idempotent_amended_witness :
    execCmd (Cmd.clearSelection 2) (execCmd (Cmd.clearSelection 2) selWorld) =
      execCmd (Cmd.clearSelection 2) selWorld ∧
    execCmd (Cmd.uploadImage none none 3) (execCmd (Cmd.uploadImage none none 3) selWorld) =
      execCmd (Cmd.uploadImage none none 3) selWorld :=
  ⟨apply_idempotent_amended.2.2.2.1 2 selWorld (by decide),
   apply_idempotent_amended.1 none none 3 selWorld⟩

/-! ## The `crop` entry point of `Canvas.tsx` (C2, C9) -/

/-- `getActiveImageObject()`: the drawable bound to the active layer. -/
def getActiveImage (w : World) : Option ObjId :=
  match w.activeLayerId with
  | some lid => mapGet lid w.layerMap
  | none => none

/-- The `crop(width, height, x, y)` function of `Canvas.tsx`: bail out
when there is no selection; reject non-positive dimensions before any
mutation; otherwise rasterize a fresh image for the active layer (a new
object with `left = x`, `top = y` and the crop dimensions), clear the
selection ref, build a `CropAction` carrying the old/new dimensions and
origins, attach the image pair, and run it through the History Engine.
Note the modelled `CropAction.execute`, like the source, never invokes the
`setCanvasSize`/`setDocumentOrigin` callbacks it stores. -/
def cropOp (width height x y : ℚ) (w : World) (h : HistoryManager World) :
    World × HistoryManager World :=
  match w.selectionRef with
  | none => (w, h)
  | some sel =>
    if width ≤ 0 ∨ height ≤ 0 then (w, h)
    else
      let activeImg := getActiveImage w
      let newImg : Option ObjId := match activeImg with
        | some _ => some w.nextId
        | none => none
      let w1 := match activeImg with
        | some _ =>
          { w with nextId := w.nextId + 1,
                   attrs := w.attrs ++ [(w.nextId, (⟨x, y, 1, 1, width, height, true⟩ : ObjAttrs))] }
        | none => w
      let w2 := { w1 with selectionRef := none }
      let cmd := Cmd.crop w.canvasWidth w.canvasHeight width height
        w.documentOrigin (w.documentOrigin.1 + x, w.documentOrigin.2 + y)
        x y sel w.activeLayerId activeImg newImg
      let r := h.execute (Cmd.toAction cmd) w2
      (r.2, r.1)

/-- C9: a crop request with non-positive width or height is rejected
before any mutation: the document state and the history stacks are
returned untouched, so no drawable is added or removed, dimensions and
origin keep their values, and nothing is recorded in history. -/
theorem crop_rejects_nonpositive (width height x y : ℚ) (w : World)
    (h : HistoryManager World) (hbad : width ≤ 0 ∨ height ≤ 0) :
    cropOp width height x y w h = (w, h) := by
  unfold cropOp
  cases hsel : w.selectionRef with
  | none => rfl
  | some sel => simp [hbad]

/-- Witness for `crop_rejects_nonpositive`: a crop to width −1 on a
document with an active selection changes nothing. -/
theorem crop_rejects_nonpositive_witness :
    cropOp (-1) 300 100 50 selWorld (HistoryManager.fresh World) =
      (selWorld, HistoryManager.fresh World) :=
  crop_rejects_nonpositive (-1) 300 100 50 selWorld (HistoryManager.fresh World)
    (Or.inl (by norm_num))

/-- C2 fails on the code: `CropAction` stores the new dimensions and the
new document origin and receives the `setCanvasSize`/`setDocumentOrigin`
callbacks, but neither its `execute` nor its `undo` (nor `crop` itself)
ever calls them.  Cropping the 1000×800 document `selWorld` to
`(100, 50, 400, 300)` leaves the canvas at 1000×800 and the origin at
`(0, 0)` after execute, and likewise after undo and redo — the claim's
`(400, 300)` dimensions and `old_origin + (100, 50)` origin never
materialize. -/
theorem crop_dims_never_change :
    ((cropOp 400 300 100 50 selWorld (HistoryManager.fresh World)).1.canvasWidth = 1000 ∧
     (cropOp 400 300 100 50 selWorld (HistoryManager.fresh World)).1.canvasHeight = 800 ∧
     (cropOp 400 300 100 50 selWorld (HistoryManager.fresh World)).1.documentOrigin = (0, 0)) ∧
    (((cropOp 400 300 100 50 selWorld (HistoryManager.fresh World)).2.undo
        (cropOp 400 300 100 50 selWorld (HistoryManager.fresh World)).1).2.canvasWidth = 1000 ∧
     ((cropOp 400 300 100 50 selWorld (HistoryManager.fresh World)).2.undo
        (cropOp 400 300 100 50 selWorld (HistoryManager.fresh World)).1).2.canvasHeight = 800 ∧
     ((cropOp 400 300 100 50 selWorld (HistoryManager.fresh World)).2.undo
        (cropOp 400 300 100 50 selWorld (HistoryManager.fresh World)).1).2.documentOrigin
        = (0, 0)) ∧
    ((((cropOp 400 300 100 50 selWorld (HistoryManager.fresh World)).2.undo
        (cropOp 400 300 100 50 selWorld (HistoryManager.fresh World)).1).1.redo
       ((cropOp 400 300 100 50 selWorld (HistoryManager.fresh World)).2.undo
        (cropOp 400 300 100 50 selWorld (HistoryManager.fresh World)).1).2).2.canvasWidth = 1000 ∧
     (((cropOp 400 300 100 50 selWorld (HistoryManager.fresh World)).2.undo
        (cropOp 400 300 100 50 selWorld (HistoryManager.fresh World)).1).1.redo
       ((cropOp 400 300 100 50 selWorld (HistoryManager.fresh World)).2.undo
        (cropOp 400 300 100 50 selWorld (HistoryManager.fresh World)).1).2).2.documentOrigin
        = (0, 0)) := by
  decide

/-! ## The selection gesture controller of `Canvas.tsx` (C6, C7) -/

/-- The mutable closure state of `setupSelectionInteraction`
(`isDrawing`, `startX`, `startY`) together with the canvas-attached
`_tempSelection` and the pending modify capture. -/
structure GestureState where
  isDrawing : Bool
  startX : ℚ
  startY : ℚ
  tempSelection : Option ObjId
  selectionBeforeModify : Option SelState
deriving DecidableEq

/-- The state the selection interaction handlers touch. -/
structure EditorState where
  world : World
  gesture : GestureState
  history : HistoryManager World

/-- Read an object's geometry slice. -/
def readSel (a : ObjAttrs) : SelState :=
  ⟨a.left, a.top, a.scaleX, a.scaleY, a.width, a.height⟩

/-- The `mouse:down` handler: gated on the select/crop tools and an
active image; a hit on the existing selection starts a modify capture;
otherwise the previous selection is discarded, the anchor is recorded and
a fresh zero-sized rectangle at the pointer becomes `_tempSelection`. -/
def mouseDown (pointer : ℚ × ℚ) (target : Option ObjId) (e : EditorState) : EditorState :=
  if e.world.activeTool = Tool.select ∨ e.world.activeTool = Tool.crop then
    match getActiveImage e.world with
    | none => e
    | some _ =>
      match target, e.world.selectionRef with
      | some t, some s =>
        if t = s then
          { e with gesture :=
              { e.gesture with
                  selectionBeforeModify := some (readSel (getAttrs s e.world.attrs)) } }
        else mouseDownDraw pointer e
      | _, _ => mouseDownDraw pointer e
  else e
where
  /-- The drawing branch of `mouse:down`. -/
  mouseDownDraw (pointer : ℚ × ℚ) (e : EditorState) : EditorState :=
    let w0 := e.world
    let w1 := match w0.selectionRef with
      | some r => { w0 with objects := removeFirst r w0.objects, selectionRef := none }
      | none => w0
    let rect := w1.nextId
    let w2 := { w1 with
        attrs := w1.attrs ++ [(rect, ⟨pointer.1, pointer.2, 1, 1, 0, 0, true⟩)],
        objects := w1.objects ++ [rect],
        nextId := rect + 1 }
    { world := w2,
      gesture := { e.gesture with
          isDrawing := true, startX := pointer.1, startY := pointer.2,
          tempSelection := some rect },
      history := e.history }

/-- The `mouse:move` handler: while drawing, set `left`/`top` to the
pointer only when the signed width/height is negative, then store the
absolute width/height. -/
def mouseMove (pointer : ℚ × ℚ) (e : EditorState) : EditorState :=
  if e.gesture.isDrawing then
    match e.gesture.tempSelection with
    | none => e
    | some rect =>
      let width := pointer.1 - e.gesture.startX
      let height := pointer.2 - e.gesture.startY
      let f : ObjAttrs → ObjAttrs := fun a =>
        let a1 := if width < 0 then { a with left := pointer.1 } else a
        let a2 := if height < 0 then { a1 with top := pointer.2 } else a1
        { a2 with width := abs width, height := abs height }
      { e with world := { e.world with attrs := setAttrs rect f e.world.attrs } }
  else e

/-- The `mouse:up` handler: a rectangle under 5×5 is silently removed; a
larger one becomes the selection and exactly one `CreateSelectionAction`
is executed through the History Engine. -/
def mouseUp (e : EditorState) : EditorState :=
  if e.gesture.isDrawing then
    match e.gesture.tempSelection with
    | none => e
    | some rect =>
      let a := getAttrs rect e.world.attrs
      let g1 := { e.gesture with isDrawing := false, tempSelection := none }
      if a.width < 5 ∨ a.height < 5 then
        { world := { e.world with objects := removeFirst rect e.world.objects },
          gesture := g1, history := e.history }
      else
        let w1 := { e.world with selectionRef := some rect }
        let act := Cmd.toAction (Cmd.createSelection rect none)
        let w2 := { w1 with objects := removeFirst rect w1.objects }
        let r := e.history.execute act w2
        { world := r.2, gesture := g1, history := r.1 }
  else e

/-- C6: completing a drawing gesture whose rectangle is under 5 pixels in
either dimension leaves the history stacks, the selection ref and the
layer store untouched (the rectangle is silently removed from the graph);
otherwise exactly one `CreateSelection` command is appended to the undo
stack (given the stack has room) and the rectangle becomes the active
selection. -/
theorem selection_min_size (e : EditorState) (rect : ObjId)
    (hdraw : e.gesture.isDrawing = true)
    (htemp : e.gesture.tempSelection = some rect)
    (hroom : e.history.undoStack.length < e.history.maxHistorySize) :
    ((getAttrs rect e.world.attrs).width < 5 ∨ (getAttrs rect e.world.attrs).height < 5 →
      (mouseUp e).history.undoStack = e.history.undoStack ∧
      (mouseUp e).history.redoStack = e.history.redoStack ∧
      (mouseUp e).world.selectionRef = e.world.selectionRef ∧
      (mouseUp e).world.layers = e.world.layers ∧
      (mouseUp e).world.objects = removeFirst rect e.world.objects) ∧
    (¬((getAttrs rect e.world.attrs).width < 5 ∨ (getAttrs rect e.world.attrs).height < 5) →
      (mouseUp e).history.undoStack =
        e.history.undoStack ++ [Cmd.toAction (Cmd.createSelection rect none)] ∧
      (mouseUp e).history.undoStack.length = e.history.undoStack.length + 1 ∧
      (mouseUp e).world.selectionRef = some rect) := by
  constructor
  · intro hsmall
    simp only [mouseUp, hdraw, if_true, htemp]
    rw [if_pos hsmall]
    exact ⟨rfl, rfl, rfl, rfl, rfl⟩
  · intro hbig
    simp only [mouseUp, hdraw, if_true, htemp]
    rw [if_neg hbig]
    have hexec : ¬ e.history.maxHistorySize < e.history.undoStack.length + 1 := by
      omega
    refine ⟨?_, ?_, ?_⟩
    · simp [HistoryManager.execute, hexec]
    · simp [HistoryManager.execute, hexec]
    · simp [HistoryManager.execute, execCmd, Cmd.toAction]

/-- A mid-gesture editor state whose temp rectangle (object 2) has the
given width and height. -/
def gestureE (wd ht : ℚ) : EditorState where
  world := { baseWorld with
      objects := [1, 2],
      attrs := baseWorld.attrs ++ [(2, ⟨10, 10, 1, 1, wd, ht, true⟩)],
      activeTool := Tool.select,
      nextId := 3 }
  gesture := ⟨true, 10, 10, some 2, none⟩
  history := HistoryManager.fresh World

/-- Witness for `selection_min_size`: a 3×3 drag leaves history and
selection untouched; a 10×10 drag appends exactly one entry and installs
the selection. -/
theorem selection_min_size_witness :
    ((mouseUp (gestureE 3 3)).history.undoStack = (gestureE 3 3).history.undoStack ∧
     (mouseUp (gestureE 3 3)).world.selectionRef = (gestureE 3 3).world.selectionRef) ∧
    ((mouseUp (gestureE 10 10)).history.undoStack.length =
       (gestureE 10 10).history.undoStack.length + 1 ∧
     (mouseUp (gestureE 10 10)).world.selectionRef = some 2) := by
  constructor
  · have h := (selection_min_size (gestureE 3 3) 2 rfl rfl (by decide)).1 (by decide)
    exact ⟨h.1, h.2.2.1⟩
  · have h := (selection_min_size (gestureE 10 10) 2 rfl rfl (by decide)).2 (by decide)
    exact ⟨h.2.1, h.2.2⟩

/-! ## C7: pointer-move normalization -/

/-- Whether the heap holds attributes for an object. -/
def hasAttr (o : ObjId) (h : List (ObjId × ObjAttrs)) : Bool :=
  h.any (fun p => p.1 = o)

theorem getAttrs_setAttrs (o : ObjId) (f : ObjAttrs → ObjAttrs)
    (h : List (ObjId × ObjAttrs)) (hp : hasAttr o h = true) :
    getAttrs o (setAttrs o f h) = f (getAttrs o h) := by
  induction h with
  | nil => simp [hasAttr] at hp
  | cons p rest ih =>
    by_cases h1 : p.1 = o
    · simp [getAttrs, setAttrs, List.find?, h1]
    · have hp' : hasAttr o rest = true := by
        simpa [hasAttr, List.find?, h1] using hp
      have := ih hp'
      simpa [getAttrs, setAttrs, List.find?, h1] using this

theorem getAttrs_append_fresh (o : ObjId) (a : ObjAttrs)
    (h : List (ObjId × ObjAttrs)) (hfresh : ∀ q ∈ h, q.1 ≠ o) :
    getAttrs o (h ++ [(o, a)]) = a ∧ hasAttr o (h ++ [(o, a)]) = true := by
  induction h with
  | nil => simp [getAttrs, hasAttr, List.find?]
  | cons p rest ih =>
    have hp : p.1 ≠ o := hfresh p (by simp)
    have := ih (fun q hq => hfresh q (by simp [hq]))
    simpa [getAttrs, hasAttr, List.find?, hp] using this

theorem mouseDownDraw_spec (p₀ : ℚ × ℚ) (e : EditorState) :
    (mouseDown.mouseDownDraw p₀ e).world.attrs =
      e.world.attrs ++ [(e.world.nextId, (⟨p₀.1, p₀.2, 1, 1, 0, 0, true⟩ : ObjAttrs))] ∧
    (mouseDown.mouseDownDraw p₀ e).gesture.isDrawing = true ∧
    (mouseDown.mouseDownDraw p₀ e).gesture.tempSelection = some e.world.nextId ∧
    (mouseDown.mouseDownDraw p₀ e).gesture.startX = p₀.1 ∧
    (mouseDown.mouseDownDraw p₀ e).gesture.startY = p₀.2 := by
  unfold mouseDown.mouseDownDraw
  cases hsel : e.world.selectionRef <;> simp [hsel]

theorem mouseDown_draw_of_target_none (p₀ : ℚ × ℚ) (e : EditorState) (img : ObjId)
    (htool : e.world.activeTool = Tool.select ∨ e.world.activeTool = Tool.crop)
    (himg : getActiveImage e.world = some img) :
    mouseDown p₀ none e = mouseDown.mouseDownDraw p₀ e := by
  unfold mouseDown
  rw [if_pos htool, himg]

theorem mouseMove_spec (p : ℚ × ℚ) (e : EditorState) (r : ObjId)
    (hdraw : e.gesture.isDrawing = true) (htemp : e.gesture.tempSelection = some r)
    (hhas : hasAttr r e.world.attrs = true) :
    getAttrs r (mouseMove p e).world.attrs =
      ⟨if p.1 - e.gesture.startX < 0 then p.1 else (getAttrs r e.world.attrs).left,
       if p.2 - e.gesture.startY < 0 then p.2 else (getAttrs r e.world.attrs).top,
       (getAttrs r e.world.attrs).scaleX, (getAttrs r e.world.attrs).scaleY,
       abs (p.1 - e.gesture.startX), abs (p.2 - e.gesture.startY),
       (getAttrs r e.world.attrs).visible⟩ := by
  simp only [mouseMove, hdraw, if_true, htemp]
  rw [getAttrs_setAttrs _ _ _ hhas]
  by_cases hx : p.1 - e.gesture.startX < 0 <;>
    by_cases hy : p.2 - e.gesture.startY < 0 <;>
    simp [hx, hy]

theorem hasAttr_setAttrs (o o' : ObjId) (f : ObjAttrs → ObjAttrs)
    (h : List (ObjId × ObjAttrs)) : hasAttr o (setAttrs o' f h) = hasAttr o h := by
  induction h with
  | nil => rfl
  | cons p rest ih =>
    have hkey : (if p.1 = o' then (p.1, f p.2) else p).1 = p.1 := by
      by_cases hp : p.1 = o' <;> simp [hp]
    simp only [hasAttr, setAttrs, List.map_cons, List.any_cons] at ih ⊢
    rw [hkey, ih]

theorem mouseMove_gesture (p : ℚ × ℚ) (e : EditorState) :
    (mouseMove p e).gesture = e.gesture := by
  unfold mouseMove
  by_cases h : e.gesture.isDrawing
  · simp only [h, if_true]
    cases e.gesture.tempSelection <;> rfl
  · simp [h]

theorem mouseMove_hasAttr (p : ℚ × ℚ) (e : EditorState) (r o : ObjId)
    (hdraw : e.gesture.isDrawing = true) (htemp : e.gesture.tempSelection = some r) :
    hasAttr o (mouseMove p e).world.attrs = hasAttr o e.world.attrs := by
  simp only [mouseMove, hdraw, if_true, htemp]
  exact hasAttr_setAttrs o r _ e.world.attrs

/-- The state of the fresh rectangle after the first pointer-move of a
drawing gesture started by `mouseDown` at `p₀` (raw `if` form, exactly the
handler's branches). -/
theorem firstMove_spec (p₀ p : ℚ × ℚ) (e : EditorState) (img : ObjId)
    (htool : e.world.activeTool = Tool.select ∨ e.world.activeTool = Tool.crop)
    (himg : getActiveImage e.world = some img)
    (hfresh : ∀ q ∈ e.world.attrs, q.1 ≠ e.world.nextId) :
    getAttrs e.world.nextId (mouseMove p (mouseDown p₀ none e)).world.attrs =
      ⟨if p.1 - p₀.1 < 0 then p.1 else p₀.1,
       if p.2 - p₀.2 < 0 then p.2 else p₀.2,
       1, 1, abs (p.1 - p₀.1), abs (p.2 - p₀.2), true⟩ := by
  rw [mouseDown_draw_of_target_none p₀ e img htool himg]
  obtain ⟨hattrs1, hdrawing, hrect, hsx, hsy⟩ := mouseDownDraw_spec p₀ e
  obtain ⟨hget, hhas⟩ := getAttrs_append_fresh e.world.nextId
    (⟨p₀.1, p₀.2, 1, 1, 0, 0, true⟩ : ObjAttrs) e.world.attrs hfresh
  rw [mouseMove_spec p (mouseDown.mouseDownDraw p₀ e) e.world.nextId hdrawing hrect
    (by rw [hattrs1]; exact hhas)]
  rw [hsx, hsy, hattrs1, hget]

/-- C7 (amended): after every pointer-move of a drawing gesture the
in-progress rectangle's width and height are non-negative; and after the
*first* pointer-move of a gesture the rectangle's left/top equal
`min(start, pointer)` in both axes.  (On later moves the handler only
rewrites `left`/`top` when the current signed extent is negative, so after
a direction flip they can retain an earlier pointer position — see the
counterexample.) -/
theorem move_normalizes_amended :
    (∀ (e : EditorState) (r : ObjId) (p : ℚ × ℚ),
      e.gesture.isDrawing = true → e.gesture.tempSelection = some r →
      hasAttr r e.world.attrs = true →
      0 ≤ (getAttrs r (mouseMove p e).world.attrs).width ∧
      0 ≤ (getAttrs r (mouseMove p e).world.attrs).height) ∧
    (∀ (p₀ p : ℚ × ℚ) (e : EditorState),
      (e.world.activeTool = Tool.select ∨ e.world.activeTool = Tool.crop) →
      getActiveImage e.world ≠ none →
      (∀ q ∈ e.world.attrs, q.1 ≠ e.world.nextId) →
      getAttrs e.world.nextId (mouseMove p (mouseDown p₀ none e)).world.attrs =
        ⟨min p₀.1 p.1, min p₀.2 p.2, 1, 1, abs (p.1 - p₀.1), abs (p.2 - p₀.2), true⟩) := by
  constructor
  · intro e r p hdraw htemp hattr
    rw [mouseMove_spec p e r hdraw htemp hattr]
    constructor
    · exact abs_nonneg _
    · exact abs_nonneg _
  · intro p₀ p e htool hactive hfresh
    obtain ⟨img, himg⟩ := Option.ne_none_iff_exists'.mp hactive
    rw [firstMove_spec p₀ p e img htool himg hfresh]
    rcases lt_or_le (p.1 - p₀.1) 0 with hx | hx <;>
      rcases lt_or_le (p.2 - p₀.2) 0 with hy | hy
    · have h1 : min p₀.1 p.1 = p.1 := min_eq_right (by linarith)
      have h2 : min p₀.2 p.2 = p.2 := min_eq_right (by linarith)
      simp [hx, hy, h1, h2]
    · have h1 : min p₀.1 p.1 = p.1 := min_eq_right (by linarith)
      have h2 : min p₀.2 p.2 = p₀.2 := min_eq_left (by linarith)
      simp [hx, not_lt.mpr hy, h1, h2]
    · have h1 : min p₀.1 p.1 = p₀.1 := min_eq_left (by linarith)
      have h2 : min p₀.2 p.2 = p.2 := min_eq_right (by linarith)
      simp [not_lt.mpr hx, hy, h1, h2]
    · have h1 : min p₀.1 p.1 = p₀.1 := min_eq_left (by linarith)
      have h2 : min p₀.2 p.2 = p₀.2 := min_eq_left (by linarith)
      simp [not_lt.mpr hx, not_lt.mpr hy, h1, h2]

/-- An idle editor state, select tool armed, ready to start a drawing
gesture. -/
def drawReady : EditorState where
  world := { baseWorld with activeTool := Tool.select }
  gesture := ⟨false, 0, 0, none, none⟩
  history := HistoryManager.fresh World

/-- C7 is false as stated: drag left to x = 90 (the handler moves `left`
to 90), then right to x = 110 (signed width is now positive, so `left` is
left alone).  After this second move `left` is 90, but
`min(startX, pointer.x) = min(100, 110) = 100`. -/
theorem move_min_corner_counterexample :
    (getAttrs drawReady.world.nextId
      (mouseMove (110, 100)
        (mouseMove (90, 100)
          (mouseDown (100, 100) none drawReady))).world.attrs).left ≠
      min (100 : ℚ) 110 := by
  have himg : getActiveImage drawReady.world = some 1 := rfl
  have hfresh : ∀ q ∈ drawReady.world.attrs, q.1 ≠ drawReady.world.nextId := by decide
  have h1 := firstMove_spec (100, 100) (90, 100) drawReady 1 (Or.inl rfl) himg hfresh
  have hd : mouseDown (100, 100) none drawReady =
      mouseDown.mouseDownDraw (100, 100) drawReady :=
    mouseDown_draw_of_target_none (100, 100) drawReady 1 (Or.inl rfl) himg
  obtain ⟨hattrs1, hdrawing, hrect, hsx, hsy⟩ := mouseDownDraw_spec (100, 100) drawReady
  obtain ⟨hget, hhas⟩ := getAttrs_append_fresh drawReady.world.nextId
    (⟨(100 : ℚ), (100 : ℚ), 1, 1, 0, 0, true⟩ : ObjAttrs) drawReady.world.attrs hfresh
  have hg1 : (mouseMove (90, 100) (mouseDown (100, 100) none drawReady)).gesture =
      (mouseDown (100, 100) none drawReady).gesture := mouseMove_gesture _ _
  have hdraw1 : (mouseMove (90, 100) (mouseDown (100, 100) none drawReady)).gesture.isDrawing
      = true := by rw [hg1, hd]; exact hdrawing
  have htemp1 : (mouseMove (90, 100) (mouseDown (100, 100) none drawReady)).gesture.tempSelection
      = some drawReady.world.nextId := by rw [hg1, hd]; exact hrect
  have hsx1 : (mouseMove (90, 100) (mouseDown (100, 100) none drawReady)).gesture.startX
      = (100 : ℚ) := by rw [hg1, hd]; exact hsx
  have hhas1 : hasAttr drawReady.world.nextId
      (mouseMove (90, 100) (mouseDown (100, 100) none drawReady)).world.attrs = true := by
    rw [mouseMove_hasAttr (90, 100) _ drawReady.world.nextId drawReady.world.nextId
      (by rw [hd]; exact hdrawing) (by rw [hd]; exact hrect)]
    rw [hd, hattrs1]
    exact hhas
  rw [mouseMove_spec (110, 100) _ drawReady.world.nextId hdraw1 htemp1 hhas1]
  rw [hsx1, h1]
  have hc1 : ¬ ((110 : ℚ), (100 : ℚ)).1 - 100 < 0 := by norm_num
  rw [if_neg hc1]
  have hc2 : ((90 : ℚ), (100 : ℚ)).1 - ((100 : ℚ), (100 : ℚ)).1 < 0 := by norm_num
  rw [if_pos hc2]
  norm_num

/-- Witness for `move_normalizes_amended`: a concrete mid-gesture move
keeps extents non-negative, and a concrete first move up-left of the
anchor lands the rectangle at the min corner. -/
theorem move_normalizes_amended_witness :
    (0 ≤ (getAttrs 2 (mouseMove (110, 100) (gestureE 3 3)).world.attrs).width ∧
     0 ≤ (getAttrs 2 (mouseMove (110, 100) (gestureE 3 3)).world.attrs).height) ∧
    getAttrs drawReady.world.nextId
        (mouseMove (90, 80) (mouseDown (100, 100) none drawReady)).world.attrs =
      ⟨min (100 : ℚ) 90, min (100 : ℚ) 80, 1, 1,
        abs ((90 : ℚ) - 100), abs ((80 : ℚ) - 100), true⟩ :=
  ⟨move_normalizes_amended.1 (gestureE 3 3) 2 (110, 100) rfl rfl (by decide),
   move_normalizes_amended.2 (100, 100) (90, 80) drawReady (Or.inl rfl)
     (by decide) (by decide)⟩

/-! ## C8: mask inversion (`generateMaskData`, `invert` case)

The invert branch draws the existing mask buffer onto a fresh
canvas-sized buffer (the 2D context scales it to the canvas dimensions;
we model the resampling as nearest-neighbour, which is exact when the
dimensions already agree) and then composites a white fill with
`globalCompositeOperation = 'difference'`, turning every channel value
`p` into `255 - p`. -/

/-- A decoded pixel buffer: dimensions and row-major channel values
(0–255). -/
structure MaskBuffer where
  width : Nat
  height : Nat
  data : List Nat
deriving DecidableEq

/-- Sample the source buffer at the source position corresponding to
target pixel `(ix, iy)` of a `cw × ch` draw (out-of-range reads 0). -/
def samplePixel (m : MaskBuffer) (cw ch ix iy : Nat) : Nat :=
  m.data.getD ((iy * m.height / ch) * m.width + ix * m.width / cw) 0

/-- `ctx.drawImage(mask, 0, 0, width, height)`: the source scaled onto a
`cw × ch` target. -/
def drawScaled (m : MaskBuffer) (cw ch : Nat) : List Nat :=
  (List.range (cw * ch)).map (fun k => samplePixel m cw ch (k % cw) (k / cw))

/-- The invert operation: draw the mask at canvas size, then `difference`
against a white fill (`p ↦ 255 − p`), always yielding a fresh buffer at
canvas dimensions. -/
def invertMaskBuffer (cw ch : Nat) (m : MaskBuffer) : MaskBuffer :=
  ⟨cw, ch, (drawScaled m cw ch).map (fun p => 255 - p)⟩

/-- `generateMaskData('invert')`: `null` when the active layer has no
mask, else a fresh inverted buffer. -/
def generateMaskInvert (cw ch : Nat) (mask : Option MaskBuffer) : Option MaskBuffer :=
  match mask with
  | none => none
  | some m => some (invertMaskBuffer cw ch m)

theorem samplePixel_id (cw ch : Nat) (m : MaskBuffer) (hw : m.width = cw)
    (hh : m.height = ch) (hcw : 0 < cw) (hch : 0 < ch) (k : Nat) :
    samplePixel m cw ch (k % cw) (k / cw) = m.data.getD k 0 := by
  unfold samplePixel
  rw [hw, hh, Nat.mul_div_cancel _ hch, Nat.mul_div_cancel _ hcw, Nat.div_add_mod']

theorem invertMaskBuffer_data (cw ch : Nat) (m : MaskBuffer) (hw : m.width = cw)
    (hh : m.height = ch) (hcw : 0 < cw) (hch : 0 < ch) :
    (invertMaskBuffer cw ch m).data =
      (List.range (cw * ch)).map (fun k => 255 - m.data.getD k 0) := by
  unfold invertMaskBuffer drawScaled
  rw [List.map_map]
  dsimp only
  congr 1
  funext k
  simp [Function.comp, samplePixel_id cw ch m hw hh hcw hch k]

theorem getD_range_map (f : Nat → Nat) (n k : Nat) (hk : k < n) :
    ((List.range n).map f).getD k 0 = f k := by
  rw [List.getD_eq_getElem?_getD, List.getElem?_map, List.getElem?_range hk]
  rfl

/-- C8: for a non-degenerate mask buffer already at canvas dimensions
with 8-bit channel values, inverting twice returns a buffer equal to the
original pixel for pixel, and each invert yields a buffer at exactly the
canvas pixel dimensions. -/
theorem invert_self_inverse (cw ch : Nat) (m : MaskBuffer)
    (hw : m.width = cw) (hh : m.height = ch) (hlen : m.data.length = cw * ch)
    (hpix : ∀ p ∈ m.data, p ≤ 255) (hcw : 0 < cw) (hch : 0 < ch) :
    invertMaskBuffer cw ch (invertMaskBuffer cw ch m) = m ∧
    (invertMaskBuffer cw ch m).width = cw ∧
    (invertMaskBuffer cw ch m).height = ch ∧
    (invertMaskBuffer cw ch m).data.length = cw * ch := by
  have hdata1 := invertMaskBuffer_data cw ch m hw hh hcw hch
  have hdata2 := invertMaskBuffer_data cw ch (invertMaskBuffer cw ch m) rfl rfl hcw hch
  refine ⟨?_, rfl, rfl, ?_⟩
  · obtain ⟨w, h, data⟩ := m
    simp only at hw hh hlen hpix
    subst hw hh
    have hfinal : (invertMaskBuffer w h (invertMaskBuffer w h ⟨w, h, data⟩)).data = data := by
      rw [hdata2, hdata1]
      apply List.ext_getElem
      · simp [hlen]
      · intro i h1 h2
        have hin : i < w * h := by
          simpa using h1
        simp only [List.getElem_map, List.getElem_range]
        rw [getD_range_map _ _ _ hin]
        have hgetd : data.getD i 0 = data[i] := by
          rw [List.getD_eq_getElem?_getD, List.getElem?_eq_getElem h2]
          rfl
        have hle : data[i] ≤ 255 := hpix _ (List.getElem_mem h2)
        rw [hgetd]
        omega
    have hww : (invertMaskBuffer w h (invertMaskBuffer w h ⟨w, h, data⟩)).width = w := rfl
    have hhh : (invertMaskBuffer w h (invertMaskBuffer w h ⟨w, h, data⟩)).height = h := rfl
    cases hb : invertMaskBuffer w h (invertMaskBuffer w h ⟨w, h, data⟩) with
    | mk bw bh bd =>
      rw [hb] at hww hhh hfinal
      simp only at hww hhh hfinal
      rw [hww, hhh, hfinal]
  · rw [hdata1]
    simp

/-- A concrete 2×2 mask. -/
def sampleMask : MaskBuffer :=
  ⟨2, 2, [0, 255, 10, 200]⟩

/-- Witness for `invert_self_inverse` on the concrete 2×2 mask. -/
theorem invert_self_inverse_witness :
    invertMaskBuffer 2 2 (invertMaskBuffer 2 2 sampleMask) = sampleMask ∧
    (invertMaskBuffer 2 2 sampleMask).width = 2 ∧
    (invertMaskBuffer 2 2 sampleMask).height = 2 ∧
    (invertMaskBuffer 2 2 sampleMask).data.length = 2 * 2 :=
  invert_self_inverse 2 2 sampleMask rfl rfl rfl (by decide) (by decide) (by decide)

end Zerothlayer
